import Mathlib

/-!
# my_shell: a verification development

A shallow embedding of the mini shell (`argparse.c`, `builtin.c`, `myshell.c`)
and theorems about its tokenizer, its built-in dispatch and its
fork/exec/wait protocol.

Conventions of the embedding
* a C `char` is a `Char`; the terminator is `NUL`;
* a `char *` into the line buffer is an offset (`Nat`) into a `List Char`
  that holds the buffer bytes, terminators included; `cstrAt` reads the C
  string at an offset;
* C `int` loop counters are `Nat` (a line would need 2^31 words to wrap);
* operating-system answers that the program cannot predict (the result of
  `fork`, of `chdir`, the chunking of `read`, ...) come from a `World`.
-/

namespace MyShell

/-! ## Strings in memory -/

/-- The string terminator of C. -/
def NUL : Char := Char.ofNat 0

/-- The six white-space characters of `isspace` in the C locale (the shell
never calls `setlocale`): space, `\t`, `\n`, `\v`, `\f`, `\r`. -/
def isspace (c : Char) : Bool :=
  c == ' ' || c == '\t' || c == '\n' || c == Char.ofNat 11 || c == Char.ofNat 12 || c == '\r'

/-- Read a C string from a list of bytes: everything before the first `NUL`. -/
def cstr (bytes : List Char) : List Char :=
  bytes.takeWhile (fun c => c != NUL)

/-- The C string that starts at offset `p` of the buffer `buf`. -/
def cstrAt (buf : List Char) (p : Nat) : List Char :=
  cstr (buf.drop p)

/-! ## argparse.c -/

/-- The loop of `argCount`, `while (*line != '\0')`, run on the bytes from the
pointer `line` onwards.  `none` is a read past the end of the buffer (no
terminator found). -/
def argCountLoop : List Char → Nat → Bool → Option Nat
  | [], _, _ => none
  | c :: rest, count, in_word =>
    if c = NUL then some count
    else if isspace c then argCountLoop rest count false
    else if !in_word then argCountLoop rest (count + 1) true
    else argCountLoop rest count in_word

/-- Function `argCount(line)`: `count = 0`, `in_word = FALSE`, then the loop. -/
def argCount (line : List Char) : Option Nat :=
  argCountLoop line 0 false

/-- The parsing loop of `argparse`.  The buffer is split at the pointer
`line`: `done` are the bytes already passed (with the terminators written
so far), the second argument the bytes from `*line` on, so the pointer value
is `done.length`.  `start` is the saved word start, `args` the pointers stored
so far (`args[0..i-1]`).  Returns the final buffer and `args`, the
`if (in_word)` after the loop included. -/
def argparseLoop : List Char → List Char → Nat → Bool → List Nat → Option (List Char × List Nat)
  | _, [], _, _, _ => none
  | done, c :: todo, start, in_word, args =>
    if c = NUL then
      some (done ++ c :: todo, if in_word then args ++ [start] else args)
    else if isspace c then
      if in_word then argparseLoop (done ++ [NUL]) todo start false (args ++ [start])
      else argparseLoop (done ++ [c]) todo start in_word args
    else if !in_word then argparseLoop (done ++ [c]) todo done.length true args
    else argparseLoop (done ++ [c]) todo start in_word args

/-- What `argparse` hands back: the line buffer as it left it, the array
`args` (pointers into the buffer, `none` is `NULL`) and `*argcp`. -/
structure Parsed where
  buf : List Char
  args : List (Option Nat)
  argc : Nat
  deriving DecidableEq

/-- Function `argparse(line, argcp)`, `line` being the offset of the string in
the buffer `buf`.  The outer `Option` is `none` when the buffer has no
terminator after `line`; the inner one is the `NULL` returned when `malloc`
fails.  `start` is initialised to `line`, `i` to 0 (the empty `args`). -/
def argparse (mallocOk : Bool) (buf : List Char) (line : Nat) : Option (Option Parsed) :=
  match argCount (buf.drop line) with
  | none => none
  | some count =>
    if !mallocOk then some none
    else
      match argparseLoop (buf.take line) (buf.drop line) line false [] with
      | none => none
      | some (buf2, args) => some (some ⟨buf2, args.map some ++ [none], count⟩)

/-- The strings an argument array points to, up to its first `NULL`. -/
def argStrings (buf : List Char) : List (Option Nat) → List (List Char)
  | [] => []
  | none :: _ => []
  | some p :: rest => cstrAt buf p :: argStrings buf rest

/-- Spec side of the round trip: the line made of the white-space runs `gaps`
and the tokens `toks`, alternating, starting and ending with a gap. -/
def buildLine : List (List Char) → List (List Char) → List Char
  | g :: gs, t :: ts => g ++ t ++ buildLine gs ts
  | g :: _, [] => g
  | [], _ => []

/-- A token: non-empty, no white space, no terminator inside. -/
def Word (t : List Char) : Prop :=
  t ≠ [] ∧ ∀ c ∈ t, isspace c = false ∧ c ≠ NUL

/-- A run of white space (possibly empty). -/
def Gap (g : List Char) : Prop :=
  ∀ c ∈ g, isspace c = true

/-- Gaps and tokens fit together: one more gap than tokens, and a gap that
is followed by a token and preceded by one is non-empty. -/
def Shape : List (List Char) → List (List Char) → Prop
  | [g], [] => Gap g
  | g :: g1 :: gs, t :: ts => Gap g ∧ Word t ∧ (ts ≠ [] → g1 ≠ []) ∧ Shape (g1 :: gs) ts
  | _, _ => False


/-! ## The process and its world -/

/-- An entry of `environ`: a pointer to a string that lives outside the line
buffer (given by its bytes), or a pointer into the line buffer (an offset). -/
inductive EnvPtr where
  | static (s : List Char)
  | inLine (off : Nat)
  deriving DecidableEq

/-- A file-system object as `stat` sees it: a directory (`isDir`), a special
file (`special`: a character device such as `/dev/null`, a FIFO, a terminal),
or else a regular file.  `data` are the bytes of a regular file (`st_size` is
their number) and, for a special file, the bytes it delivers when read; a
special file accepts writes without holding them and is not truncated.  The
other fields feed `ls -l`. -/
structure Node where
  isDir : Bool
  special : Bool
  data : List Nat
  perm : Nat
  nlink : Nat
  uid : Nat
  gid : Nat
  mtime : Nat
  blocks : Nat
  deriving DecidableEq

/-- What the process does to the outside, in order. -/
inductive Event where
  | out (s : List Char)
  | err (msg : String)
  | fork
  | execvp (file : Option (List Char)) (argv : List (List Char)) (env : List (List Char))
  | waitpid (pid : Int)
  | chdir (path : List Char)
  | openRead (path : List Char)
  | openWrite (path : List Char)
  | putenv (s : List Char)
  deriving DecidableEq

/-- Is the event a diagnostic on standard error. -/
def Event.isErr : Event → Bool
  | .err _ => true
  | _ => false

/-- The state of the shell process: the buffer `getline` fills (its address
is kept across calls), `environ`, the working directory, the files (by
inode number) and the events so far. -/
structure Proc where
  linebuf : List Char
  environ : List EnvPtr
  cwd : List Char
  fs : List (Nat × Node)
  trace : List Event
  deriving DecidableEq

/-- The answers of the operating system and of the C library that the program
cannot compute. -/
structure World where
  mallocOk : Bool
  fork : List Event → Int
  execOk : List Char → Bool
  chdir : List Char → List Char → Option (List Char)
  resolve : List Char → List Char → Nat
  listing : List Char → List (Nat × Node) → Option (List (List Char))
  closedirFails : Bool
  pwName : Nat → Option (List Char)
  grName : Nat → Option (List Char)
  fmtTime : Nat → List Char
  canRead : Nat → Bool
  canWrite : Nat → Bool
  readPlan : Nat → Option Nat
  writePlan : Nat → Option Nat
  closeSrcFails : Bool
  closeDestFails : Bool
  putenvFails : Bool

/-- How a piece of shell code ends: it returns a value, the process calls
`exit(status)`, the process image is replaced by a successful `execvp`, or
the C semantics gives no answer (a read through `NULL` or past a buffer, or
the iteration bound of a loop model). -/
inductive Outcome (α : Type) where
  | ret (a : α)
  | exit (status : Int)
  | replaced
  | stuck
  deriving DecidableEq

/-- Append an event to the trace. -/
def emit (e : Event) (st : Proc) : Proc :=
  { st with trace := st.trace ++ [e] }

/-- The string `args[i]`; `none` when `args[i]` is `NULL` or outside the array. -/
def argAt (st : Proc) (args : List (Option Nat)) (i : Nat) : Option (List Char) :=
  match args.get? i with
  | some (some p) => some (cstrAt st.linebuf p)
  | _ => none

/-- The string an `environ` entry points to, now. -/
def envString (st : Proc) : EnvPtr → List Char
  | .static s => cstr s
  | .inLine off => cstrAt st.linebuf off

/-- The strings of `environ`, in order. -/
def envStrings (st : Proc) : List (List Char) :=
  st.environ.map (envString st)

/-- If `s` starts with `p`, what follows. -/
def stripPrefix : List Char → List Char → Option (List Char)
  | [], s => some s
  | _ :: _, [] => none
  | a :: p, b :: s => if a = b then stripPrefix p s else none

/-- Library `getenv(name)`: the value of the first `name=value` entry. -/
def getenv (st : Proc) (name : List Char) : Option (List Char) :=
  (envStrings st).findSome? (stripPrefix (name ++ ['=']))

/-- File lookup by inode number. -/
def fsGet : List (Nat × Node) → Nat → Option Node
  | [], _ => none
  | (i, n) :: rest, id => if i = id then some n else fsGet rest id

/-- File update: the new binding shadows the old one. -/
def fsSet (fs : List (Nat × Node)) (id : Nat) (n : Node) : List (Nat × Node) :=
  (id, n) :: fs

/-- System call `stat(path)` from the current directory. -/
def stat (w : World) (st : Proc) (path : List Char) : Option Node :=
  fsGet st.fs (w.resolve st.cwd path)

/-! ## builtin.c -/

/-- Value of the leading decimal digits of a string. -/
def digitsValue : List Char → Nat → Nat
  | [], acc => acc
  | c :: cs, acc =>
    if c.isDigit then digitsValue cs (acc * 10 + (c.toNat - 48)) else acc

/-- Library `strtol(s, NULL, 10)`: skip white space, an optional sign, the
digits; the result saturates at the bounds of a 64-bit `long`. -/
def strtol10 (s : List Char) : Int :=
  let v : Int :=
    match s.dropWhile isspace with
    | '-' :: r => - (digitsValue r 0 : Int)
    | '+' :: r => (digitsValue r 0 : Int)
    | r => (digitsValue r 0 : Int)
  max (-(2 ^ 63)) (min v (2 ^ 63 - 1))

/-- Library `atoi(s)`, as `(int) strtol(s, NULL, 10)`: the value wraps into
the 32-bit `int`. -/
def atoi (s : List Char) : Int :=
  (strtol10 s + 2 ^ 31) % 2 ^ 32 - 2 ^ 31

/-- Function `exitProgram(args, argcp)`. -/
def exitProgram (st : Proc) (args : List (Option Nat)) (argcp : Nat) : Outcome Unit × Proc :=
  if argcp > 2 then (.ret (), emit (.err "exit: too many arguments") st)
  else if argcp = 1 then (.exit 0, st)
  else
    match argAt st args 1 with
    | some s => (.exit (atoi s), st)
    | none => (.stuck, st)

/-- Function `pwd(args, argcp)`.  `args` is never `NULL` here (`builtIn`
returned before), so the test is on `argcp` alone; `getcwd` into the
1024-byte buffer fails when the path and its terminator do not fit. -/
def pwd (st : Proc) (_args : List (Option Nat)) (argcp : Nat) : Outcome Unit × Proc :=
  if argcp ≠ 1 then (.ret (), emit (.err "pwd: no arguments required") st)
  else if st.cwd.length + 1 ≤ 1024 then (.ret (), emit (.out (st.cwd ++ ['\n'])) st)
  else (.ret (), emit (.err "getcwd") st)

/-- Function `cd(args, argcp)`. -/
def cd (w : World) (st : Proc) (args : List (Option Nat)) (argcp : Nat) : Outcome Unit × Proc :=
  if argcp > 2 then (.ret (), emit (.err "cd: too many arguments") st)
  else
    let path := if argcp = 1 then getenv st "HOME".toList else argAt st args 1
    match path with
    | none => (.ret (), emit (.err "cd: HOME environment variable not set") st)
    | some p =>
      let st1 := emit (.chdir p) st
      match w.chdir st.cwd p with
      | some d => (.ret (), { st1 with cwd := d })
      | none => (.ret (), emit (.err "cd") st1)

/-- Helper `get_permissions(mode, perm)`: the ten characters. -/
def get_permissions (n : Node) : List Char :=
  [ if n.isDir then 'd' else '-',
    if n.perm.testBit 8 then 'r' else '-',
    if n.perm.testBit 7 then 'w' else '-',
    if n.perm.testBit 6 then 'x' else '-',
    if n.perm.testBit 5 then 'r' else '-',
    if n.perm.testBit 4 then 'w' else '-',
    if n.perm.testBit 3 then 'x' else '-',
    if n.perm.testBit 2 then 'r' else '-',
    if n.perm.testBit 1 then 'w' else '-',
    if n.perm.testBit 0 then 'x' else '-' ]

/-- Decimal digits of a number, as `printf("%ld")` writes them. -/
def decimal (n : Nat) : List Char :=
  (Nat.toDigits 10 n)

/-- Format `%5ld`: right-justified in five columns. -/
def decimal5 (n : Nat) : List Char :=
  List.replicate (5 - (decimal n).length) ' ' ++ decimal n

/-- Helper `print_file_info`: the line of `ls -l`; `none` when `getpwuid` or
`getgrgid` returns `NULL`, which the code dereferences. -/
def print_file_info (w : World) (n : Node) (name : List Char) : Option (List Char) :=
  match w.pwName n.uid, w.grName n.gid with
  | some pw, some gr =>
    some (get_permissions n ++ [' '] ++ decimal n.nlink ++ [' '] ++ pw ++ [' '] ++ gr ++ [' ']
      ++ decimal5 n.data.length ++ [' '] ++ w.fmtTime n.mtime ++ [' '] ++ name ++ ['\n'])
  | _, _ => none

/-- First pass of `ls -l`: the sum of `st_blocks` over the entries that `stat`
accepts. -/
def lsTotal (w : World) (st : Proc) : List (List Char) → Nat → Nat
  | [], total => total
  | name :: rest, total =>
    match stat w st name with
    | some n => lsTotal w st rest (total + n.blocks)
    | none => lsTotal w st rest total

/-- Second pass of `cmdA_ls`: one line per entry other than `.` and `..`. -/
def lsPrint (w : World) (long_format : Bool) : List (List Char) → Proc → Outcome Unit × Proc
  | [], st => (.ret (), st)
  | name :: rest, st =>
    if name = ".".toList ∨ name = "..".toList then lsPrint w long_format rest st
    else
      match stat w st name with
      | none => lsPrint w long_format rest (emit (.err "stat") st)
      | some n =>
        if long_format then
          match print_file_info w n name with
          | some l => lsPrint w long_format rest (emit (.out l) st)
          | none => (.stuck, st)
        else lsPrint w long_format rest (emit (.out (name ++ ['\n'])) st)

/-- Function `cmdA_ls(args, argc)`. -/
def cmdA_ls (w : World) (st : Proc) (args : List (Option Nat)) (argc : Nat) : Outcome Unit × Proc :=
  match w.listing st.cwd st.fs with
  | none => (.ret (), emit (.err "opendir") st)
  | some entries =>
    let long_format : Option Bool :=
      if argc = 2 then (argAt st args 1).map (fun s => decide (s = "-l".toList)) else some false
    match long_format with
    | none => (.stuck, st)
    | some lf =>
      let st1 :=
        if lf then emit (.out ("total ".toList ++ decimal (lsTotal w st entries 0 / 2) ++ ['\n'])) st
        else st
      match lsPrint w lf entries st1 with
      | (.ret (), st2) =>
        if w.closedirFails then (.ret (), emit (.err "closedir") st2) else (.ret (), st2)
      | r => r

/-- The two `close` calls that end `cmdA_cp`, source first, each reported
when it fails. -/
def cpClose (w : World) (st : Proc) : Proc :=
  let st1 := if w.closeSrcFails then emit (.err "close") st else st
  if w.closeDestFails then emit (.err "close") st1 else st1

/-- The copy loop of `cmdA_cp` between the files `src` and `dst` (inode
numbers), followed by the code after it.  `k` counts the `read` calls and `off`
is the offset of the source descriptor.  A `read` returns at least one byte
unless the file is exhausted, at most 4096, and otherwise as many as the world
decides; a `write` accepts as many bytes as the world decides, and a
destination that is not a special file appends them (it was truncated when
opened and nothing else writes to it) while a special file keeps nothing.
The first argument bounds the iterations. -/
def cpLoop (w : World) (src dst : Nat) : Nat → Nat → Nat → Proc → Outcome Unit × Proc
  | 0, _, _, st => (.stuck, st)
  | fuel + 1, k, off, st =>
    match fsGet st.fs src, fsGet st.fs dst with
    | some sn, some dn =>
      match w.readPlan k with
      | none => (.ret (), cpClose w (emit (.err "read") st))
      | some want =>
        let bytes_read := min (max want 1) (min 4096 (sn.data.length - off))
        if bytes_read = 0 then (.ret (), cpClose w st)
        else
          let buffer := (sn.data.drop off).take bytes_read
          match w.writePlan k with
          | none => (.ret (), cpClose w (emit (.err "write") st))
          | some accept =>
            let written := min accept bytes_read
            let kept := if dn.special then dn.data else dn.data ++ buffer.take written
            let st1 := { st with fs := fsSet st.fs dst { dn with data := kept } }
            if written ≠ bytes_read then (.ret (), cpClose w (emit (.err "write") st1))
            else cpLoop w src dst fuel (k + 1) (off + bytes_read) st1
    | _, _ => (.stuck, st)

/-- A file as `open(.., O_CREAT, 0644)` creates it. -/
def newFile : Node :=
  ⟨false, false, [], 420, 1, 0, 0, 0, 0⟩

/-- Function `cmdA_cp(args, argc)`. -/
def cmdA_cp (w : World) (st : Proc) (args : List (Option Nat)) (argc : Nat) : Outcome Unit × Proc :=
  if argc ≠ 3 then (.ret (), emit (.err "cp: invalid number of arguments") st)
  else
    match argAt st args 1, argAt st args 2 with
    | some a1, some a2 =>
      match stat w st a1 with
      | none => (.ret (), emit (.err "stat") st)
      | some sn =>
        if sn.isDir then
          (.ret (), emit (.err ("cp: '" ++ String.mk a1 ++ "' is a directory")) st)
        else
          let src := w.resolve st.cwd a1
          let st1 := emit (.openRead a1) st
          if !w.canRead src then (.ret (), emit (.err "open") st1)
          else
            let dst := w.resolve st.cwd a2
            let st2 := emit (.openWrite a2) st1
            let old := fsGet st2.fs dst
            let isDirDest := match old with
              | some dn => dn.isDir
              | none => false
            if !w.canWrite dst || isDirDest then
              let st3 := emit (.err "open") st2
              (.ret (), if w.closeSrcFails then emit (.err "close") st3 else st3)
            else
              let fresh : Node := match old with
                | some dn => if dn.special then dn else { dn with data := [] }
                | none => newFile
              let st3 := { st2 with fs := fsSet st2.fs dst fresh }
              let size := match fsGet st3.fs src with
                | some n => n.data.length
                | none => 0
              cpLoop w src dst (size + 1) 0 0 st3
    | _, _ => (.stuck, st)

/-- Print every entry of `environ`, one per line. -/
def printEnviron (st : Proc) : Proc :=
  (envStrings st).foldl (fun s e => emit (.out (e ++ ['\n'])) s) st

/-- The name part of `NAME=VALUE`. -/
def envName (s : List Char) : List Char :=
  s.takeWhile (fun c => c != '=')

/-- Library `putenv(string)` when it succeeds: the pointer itself (not a
copy) replaces the first entry of the same name, or is appended. -/
def putenvInto (st : Proc) (name : List Char) (p : EnvPtr) : List EnvPtr → List EnvPtr
  | [] => [p]
  | e :: rest =>
    if (stripPrefix (name ++ ['=']) (envString st e)).isSome then p :: rest
    else e :: putenvInto st name p rest

/-- Function `cmdA_env(args, argc)`.  `args[1]` points into the line buffer,
and that pointer is what `putenv` stores. -/
def cmdA_env (w : World) (st : Proc) (args : List (Option Nat)) (argc : Nat) : Outcome Unit × Proc :=
  if argc > 2 then (.ret (), emit (.err "env: too many arguments") st)
  else if argc = 1 then (.ret (), printEnviron st)
  else
    match args.get? 1 with
    | some (some p) =>
      let s := cstrAt st.linebuf p
      if '=' ∉ s then (.ret (), emit (.err "env: invalid format, expected NAME=VALUE") st)
      else
        let st1 := emit (.putenv s) st
        let st2 :=
          if w.putenvFails then emit (.err "putenv") st1
          else { st1 with environ := putenvInto st1 (envName s) (.inLine p) st1.environ }
        (.ret (), printEnviron st2)
    | _ => (.stuck, st)

/-- A handler has run; `builtIn` then executes `return 1`. -/
def thenReturn1 (r : Outcome Unit × Proc) : Outcome Nat × Proc :=
  match r with
  | (.ret (), st) => (.ret 1, st)
  | (.exit n, st) => (.exit n, st)
  | (.replaced, st) => (.replaced, st)
  | (.stuck, st) => (.stuck, st)

/-- Function `builtIn(args, argcp)`; `args = none` is the `NULL` array. -/
def builtIn (w : World) (st : Proc) (args : Option (List (Option Nat))) (argcp : Nat) :
    Outcome Nat × Proc :=
  match args with
  | none => (.ret 0, st)
  | some av =>
    if argcp = 0 then (.ret 0, st)
    else
      match argAt st av 0 with
      | none => (.stuck, st)
      | some a0 =>
        if a0 = "exit".toList then thenReturn1 (exitProgram st av argcp)
        else if a0 = "pwd".toList then thenReturn1 (pwd st av argcp)
        else if a0 = "cd".toList then thenReturn1 (cd w st av argcp)
        else if a0 = "ls".toList then thenReturn1 (cmdA_ls w st av argcp)
        else if a0 = "cp".toList then thenReturn1 (cmdA_cp w st av argcp)
        else if a0 = "env".toList then thenReturn1 (cmdA_env w st av argcp)
        else (.ret 0, st)

/-! ## myshell.c -/

/-- Function `processline(line)`; `line` is an offset into the line buffer,
or `NULL`.  In the child, `execvp(arguments[0], arguments)` with a `NULL`
`arguments[0]` (the empty vector) has no defined result: the library reads
through the pointer. -/
def processline (w : World) (line : Option Nat) (st : Proc) : Outcome Unit × Proc :=
  match line with
  | none => (.ret (), st)
  | some l =>
    if (cstrAt st.linebuf l).length = 0 then (.ret (), st)
    else
      match argparse w.mallocOk st.linebuf l with
      | none => (.stuck, st)
      | some none => (.ret (), emit (.err "Failed to parse arguments.") st)
      | some (some p) =>
        let st1 := { st with linebuf := p.buf }
        match builtIn w st1 (some p.args) p.argc with
        | (.ret r, st2) =>
          if r = 0 then
            let cpid := w.fork st2.trace
            let st3 := emit .fork st2
            if cpid < 0 then (.ret (), emit (.err "fork") st3)
            else if cpid = 0 then
              match argAt st3 p.args 0 with
              | none => (.stuck, st3)
              | some f =>
                let st4 :=
                  emit (.execvp (some f) (argStrings st3.linebuf p.args) (envStrings st3)) st3
                if w.execOk f then (.replaced, st4)
                else (.exit 1, emit (.err "execvp") st4)
            else (.ret (), emit (.waitpid cpid) st3)
          else (.ret (), st2)
        | (.exit n, st2) => (.exit n, st2)
        | (.replaced, st2) => (.replaced, st2)
        | (.stuck, st2) => (.stuck, st2)

/-- The successive results of `getline` on a finite standard input: each
line with its `\n`, and a last line without one if the input does not end in
`\n`.  The second argument collects the current line. -/
def rawLines : List Char → List Char → List (List Char)
  | [], cur => if cur = [] then [] else [cur]
  | c :: cs, cur =>
    if c = '\n' then (cur ++ [c]) :: rawLines cs []
    else rawLines cs (cur ++ [c])

/-- Library `getline` into the buffer it is handed back: the line and its
terminator overwrite the start, the bytes beyond stay.  The buffer keeps its
address: this is `getline` for a line that fits the buffer it is handed, or
whose `realloc` grows the block in place; a `realloc` that moves the block
(possible for a line longer than the buffer) is not modelled. -/
def getline (buf raw : List Char) : List Char :=
  raw ++ [NUL] ++ buf.drop (raw.length + 1)

/-- The line `main` holds after `line[len - 1] = '\0'`. -/
def stripLast (buf : List Char) (len : Nat) : List Char :=
  buf.set (len - 1) NUL

/-- Function `getinput(&line, &size)`: `getline` on the next line of the
input, or, at the end of the input, `perror("getline")` and -1.  Returns
`len`. -/
def getinput (next : Option (List Char)) (st : Proc) : Int × Proc :=
  match next with
  | none => (-1, emit (.err "getline") st)
  | some raw => (raw.length, { st with linebuf := getline st.linebuf raw })

/-- The loop of `main` over the lines `getline` will deliver; the result is
the value `main` returns.  (`getline` never returns 0; the model gives no
answer for `line[-1]`.) -/
def mainLoop (w : World) : List (List Char) → Proc → Outcome Int × Proc
  | [], st =>
    match getinput none (emit (.out "% ".toList) st) with
    | (_, st1) => (.ret 0, st1)
  | raw :: rest, st =>
    match getinput (some raw) (emit (.out "% ".toList) st) with
    | (len, st1) =>
      if len = -1 then (.ret 0, st1)
      else if len = 0 then (.stuck, st1)
      else
        let st2 := { st1 with linebuf := stripLast st1.linebuf len.toNat }
        if cstrAt st2.linebuf 0 = "exit".toList then (.ret 0, st2)
        else
          match processline w (some 0) st2 with
          | (.ret (), st3) => mainLoop w rest st3
          | (.exit n, st3) => (.exit n, st3)
          | (.replaced, st3) => (.replaced, st3)
          | (.stuck, st3) => (.stuck, st3)

/-- Function `main()` on the standard input `stdin`, from a state `st`. -/
def main (w : World) (stdin : List Char) (st : Proc) : Outcome Int × Proc :=
  mainLoop w (rawLines stdin []) st

/-! ## Concrete worlds and states for the worked examples -/

/-- A small world: `malloc` works, `fork` answers `pid`, no program can be
executed, `/x` and `/tmp` are the directories one can change to, paths resolve
to inode 1 (`a`), 2 (`b`), 3 (`d`) or 0, the current directory lists `.`,
`..`, `a` and `d`, every file can be opened, and `read`/`write`/`close`/`putenv`
never fail. -/
def demoWorld (pid : Int) : World :=
  { mallocOk := true
    fork := fun _ => pid
    execOk := fun _ => false
    chdir := fun _ p => if p = "/x".toList ∨ p = "/tmp".toList then some p else none
    resolve := fun _ p =>
      if p = "a".toList then 1 else if p = "b".toList then 2 else if p = "d".toList then 3 else 0
    listing := fun _ _ => some [".".toList, "..".toList, "a".toList, "d".toList]
    closedirFails := false
    pwName := fun _ => some "root".toList
    grName := fun _ => some "root".toList
    fmtTime := fun _ => "Jan 01 00:00".toList
    canRead := fun _ => true
    canWrite := fun _ => true
    readPlan := fun _ => some 4096
    writePlan := fun _ => some 4096
    closeSrcFails := false
    closeDestFails := false
    putenvFails := false }

/-- A process whose line buffer holds `line` and its terminator, with the
environment `env`, in directory `/`, with a regular file `a` holding the bytes
1, 2, 3 and a directory `d`. -/
def demoProc (line : String) (env : List String) : Proc :=
  { linebuf := line.toList ++ [NUL]
    environ := env.map (fun s => EnvPtr.static s.toList)
    cwd := "/".toList
    fs := [(1, ⟨false, false, [1, 2, 3], 420, 1, 0, 0, 0, 8⟩), (3, ⟨true, false, [], 493, 2, 0, 0, 0, 8⟩)]
    trace := [] }

/-- A process that has not read anything yet. -/
def freshProc (env : List String) : Proc :=
  { linebuf := []
    environ := env.map (fun s => EnvPtr.static s.toList)
    cwd := "/".toList
    fs := [(1, ⟨false, false, [1, 2, 3], 420, 1, 0, 0, 0, 8⟩), (3, ⟨true, false, [], 493, 2, 0, 0, 0, 8⟩)]
    trace := [] }

/-! ## The registry of the specification -/

/-- A built-in handler as the dispatcher calls it. -/
abbrev Handler := World → Proc → List (Option Nat) → Nat → Outcome Unit × Proc

/-- The built-in registry of the specification: each recognised name with the
handler registered for it. -/
def roster : List (List Char × Handler) :=
  [ ("exit".toList, fun _ st av n => exitProgram st av n),
    ("pwd".toList, fun _ st av n => pwd st av n),
    ("cd".toList, cd),
    ("ls".toList, cmdA_ls),
    ("cp".toList, cmdA_cp),
    ("env".toList, cmdA_env) ]

/-- The recognised names. -/
def rosterNames : List (List Char) :=
  ["exit".toList, "pwd".toList, "cd".toList, "ls".toList, "cp".toList, "env".toList]

/-- Exact, case-sensitive lookup in a registry. -/
def lookupHandler : List (List Char × Handler) → List Char → Option Handler
  | [], _ => none
  | (n, h) :: rest, name => if name = n then some h else lookupHandler rest name

/-! ## Tokenizer lemmas -/

theorem isspace_NUL : isspace NUL = false := by decide

theorem gap_ne_NUL {c : Char} (h : isspace c = true) : c ≠ NUL := by
  intro hc
  rw [hc, isspace_NUL] at h
  exact Bool.noConfusion h

theorem cstr_append_NUL (t rest : List Char) (ht : ∀ c ∈ t, c ≠ NUL) :
    cstr (t ++ NUL :: rest) = t := by
  induction t with
  | nil => simp [cstr]
  | cons c t ih =>
    have hc : c ≠ NUL := ht c (List.mem_cons_self _ _)
    have ih2 := ih (fun d hd => ht d (List.mem_cons_of_mem _ hd))
    simp only [cstr] at ih2
    simp [cstr, hc, ih2]

theorem argCountLoop_gap (g rest : List Char) (count : Nat) (b : Bool) (hg : Gap g)
    (hb : b = true → g ≠ []) :
    argCountLoop (g ++ rest) count b = argCountLoop rest count false := by
  induction g generalizing b with
  | nil =>
    cases b with
    | false => rfl
    | true => exact absurd rfl (hb rfl)
  | cons c g ih =>
    have hc : isspace c = true := hg c (List.mem_cons_self _ _)
    have hn : c ≠ NUL := gap_ne_NUL hc
    have ih2 := ih false (fun d hd => hg d (List.mem_cons_of_mem _ hd)) (fun h => Bool.noConfusion h)
    simp only [List.cons_append, argCountLoop, hn, hc, if_true, if_false]
    exact ih2

theorem argCountLoop_in_word (t rest : List Char) (count : Nat)
    (ht : ∀ c ∈ t, isspace c = false ∧ c ≠ NUL) :
    argCountLoop (t ++ rest) count true = argCountLoop rest count true := by
  induction t with
  | nil => rfl
  | cons c t ih =>
    have hc := ht c (List.mem_cons_self _ _)
    have ih2 := ih (fun d hd => ht d (List.mem_cons_of_mem _ hd))
    simp [argCountLoop, hc.1, hc.2, ih2]

theorem argCountLoop_word (t rest : List Char) (count : Nat) (ht : Word t) :
    argCountLoop (t ++ rest) count false = argCountLoop rest (count + 1) true := by
  obtain ⟨hne, hall⟩ := ht
  cases t with
  | nil => exact absurd rfl hne
  | cons c t =>
    have hc := hall c (List.mem_cons_self _ _)
    have h2 := argCountLoop_in_word t rest (count + 1) (fun d hd => hall d (List.mem_cons_of_mem _ hd))
    simp [argCountLoop, hc.1, hc.2, h2]

theorem argCountLoop_shape (ts : List (List Char)) :
    ∀ (gaps : List (List Char)) (rest : List Char) (count : Nat) (b : Bool),
      Shape gaps ts → (b = true → ts ≠ [] → gaps.head? ≠ some []) →
      argCountLoop (buildLine gaps ts ++ NUL :: rest) count b = some (count + ts.length) := by
  induction ts with
  | nil =>
    intro gaps rest count b hs _
    match gaps, hs with
    | [g], hs =>
      simp only [Shape] at hs
      cases g with
      | nil => simp [buildLine, argCountLoop]
      | cons c g =>
        rw [buildLine, argCountLoop_gap (c :: g) _ count b hs (fun _ => List.cons_ne_nil _ _)]
        simp [argCountLoop]
  | cons t ts ih =>
    intro gaps rest count b hs hb
    match gaps, hs with
    | g :: g1 :: gs, hs =>
      simp only [Shape] at hs
      obtain ⟨hg, ht, hne, hrest⟩ := hs
      have hb2 : b = true → g ≠ [] := by
        intro h1 h2
        apply hb h1 (List.cons_ne_nil _ _)
        simp [h2]
      rw [buildLine, List.append_assoc, List.append_assoc, argCountLoop_gap g _ count b hg hb2,
        argCountLoop_word t _ count ht]
      rw [ih (g1 :: gs) rest (count + 1) true hrest]
      · simp; omega
      · intro _ h2
        simpa using hne h2

theorem argparseLoop_gap (g : List Char) (hg : Gap g) :
    ∀ (done rest : List Char) (start : Nat) (args : List Nat),
      argparseLoop done (g ++ rest) start false args
        = argparseLoop (done ++ g) rest start false args := by
  induction g with
  | nil => intro done rest start args; simp
  | cons c g ih =>
    intro done rest start args
    have hc : isspace c = true := hg c (List.mem_cons_self _ _)
    have hn : c ≠ NUL := gap_ne_NUL hc
    have ih2 := ih (fun d hd => hg d (List.mem_cons_of_mem _ hd)) (done ++ [c]) rest start args
    rw [List.cons_append, argparseLoop]
    simp [hn, hc, ih2]

theorem argparseLoop_in_word (t : List Char) (ht : ∀ c ∈ t, isspace c = false ∧ c ≠ NUL) :
    ∀ (done rest : List Char) (start : Nat) (args : List Nat),
      argparseLoop done (t ++ rest) start true args
        = argparseLoop (done ++ t) rest start true args := by
  induction t with
  | nil => intro done rest start args; simp
  | cons c t ih =>
    intro done rest start args
    have hc := ht c (List.mem_cons_self _ _)
    have ih2 := ih (fun d hd => ht d (List.mem_cons_of_mem _ hd)) (done ++ [c]) rest start args
    rw [List.cons_append, argparseLoop]
    simp [hc.1, hc.2, ih2]

theorem argparseLoop_word (t : List Char) (ht : Word t)
    (done rest : List Char) (start : Nat) (args : List Nat) :
    argparseLoop done (t ++ rest) start false args
      = argparseLoop (done ++ t) rest done.length true args := by
  obtain ⟨hne, hall⟩ := ht
  cases t with
  | nil => exact absurd rfl hne
  | cons c t =>
    have hc := hall c (List.mem_cons_self _ _)
    have h2 := argparseLoop_in_word t (fun d hd => hall d (List.mem_cons_of_mem _ hd))
      (done ++ [c]) rest done.length args
    rw [List.cons_append, argparseLoop]
    simp [hc.1, hc.2, h2]

theorem buildLine_cons_gap (c : Char) (g : List Char) (gs ts : List (List Char)) :
    buildLine ((c :: g) :: gs) ts = c :: buildLine (g :: gs) ts := by
  cases ts <;> simp [buildLine]

theorem shape_drop_first (c : Char) (g : List Char) (gs ts : List (List Char))
    (h : Shape ((c :: g) :: gs) ts) : Shape (g :: gs) ts := by
  have hgap : Gap (c :: g) → Gap g := fun hg d hd => hg d (List.mem_cons_of_mem _ hd)
  match gs, ts, h with
  | [], [], h =>
    simp only [Shape] at h ⊢
    exact hgap h
  | g1 :: gs, t :: ts, h =>
    simp only [Shape] at h ⊢
    exact ⟨hgap h.1, h.2⟩

theorem cstrAt_append (pre t rest : List Char) (ht : ∀ c ∈ t, c ≠ NUL) :
    cstrAt (pre ++ t ++ NUL :: rest) pre.length = t := by
  simp [cstrAt, cstr_append_NUL t rest ht]

theorem argparseLoop_shape (ts : List (List Char)) :
    ∀ (gaps : List (List Char)) (done rest : List Char) (start : Nat) (args : List Nat),
      Shape gaps ts →
      ∃ (buf : List Char) (starts : List Nat),
        argparseLoop done (buildLine gaps ts ++ NUL :: rest) start false args
          = some (buf, args ++ starts)
        ∧ buf.take done.length = done
        ∧ starts.map (cstrAt buf) = ts := by
  induction ts with
  | nil =>
    intro gaps done rest start args hs
    match gaps, hs with
    | [g], hs =>
      simp only [Shape] at hs
      refine ⟨done ++ g ++ NUL :: rest, [], ?_, ?_, ?_⟩
      · rw [buildLine, argparseLoop_gap g hs]
        simp [argparseLoop]
      · simp
      · simp
  | cons t ts ih =>
    intro gaps done rest start args hs
    match gaps, hs with
    | g :: g1 :: gs, hs =>
      simp only [Shape] at hs
      obtain ⟨hg, ht, hne, hrest⟩ := hs
      have htn : ∀ c ∈ t, c ≠ NUL := fun c hc => (ht.2 c hc).2
      rw [buildLine, List.append_assoc, List.append_assoc, argparseLoop_gap g hg,
        argparseLoop_word t ht]
      cases g1 with
      | nil =>
        have hts : ts = [] := by
          by_contra h
          exact hne h rfl
        subst hts
        match gs, hrest with
        | [], _ =>
          refine ⟨done ++ g ++ t ++ NUL :: rest, [(done ++ g).length], ?_, ?_, ?_⟩
          · simp [buildLine, argparseLoop]
          · simp
          · simp only [List.map_cons, List.map_nil]
            rw [cstrAt_append (done ++ g) t rest htn]
      | cons c g1 =>
        have hc : isspace c = true := by
          match gs, ts, hrest with
          | [], [], h =>
            simp only [Shape] at h
            exact h c (List.mem_cons_self _ _)
          | _ :: _, _ :: _, h =>
            simp only [Shape] at h
            exact h.1 c (List.mem_cons_self _ _)
        have hn : c ≠ NUL := gap_ne_NUL hc
        have hs2 := shape_drop_first c g1 gs ts hrest
        obtain ⟨buf, starts, hrun, hpre, hstr⟩ :=
          ih (g1 :: gs) (done ++ g ++ t ++ [NUL]) rest (done ++ g).length
            (args ++ [(done ++ g).length]) hs2
        refine ⟨buf, (done ++ g).length :: starts, ?_, ?_, ?_⟩
        · rw [buildLine_cons_gap]
          rw [List.cons_append, argparseLoop]
          simp only [hn, hc, if_true, if_false]
          rw [show done ++ g ++ t ++ [NUL] = done ++ g ++ t ++ [NUL] from rfl] at hrun
          rw [hrun]
          simp
        · have := congrArg (List.take done.length) hpre
          simpa [List.take_take] using this
        · have hbuf : buf = (done ++ g) ++ t ++ NUL :: buf.drop (done ++ g ++ t ++ [NUL]).length := by
            conv_lhs => rw [← List.take_append_drop (done ++ g ++ t ++ [NUL]).length buf, hpre]
            simp
          simp only [List.map_cons, hstr]
          congr 1
          rw [hbuf]
          exact cstrAt_append (done ++ g) t _ htn

theorem shape_of_lists (ts : List (List Char)) :
    ∀ (gaps : List (List Char)),
      gaps.length = ts.length + 1 →
      (∀ g ∈ gaps, ∀ c ∈ g, isspace c = true) →
      (∀ g ∈ gaps.tail.dropLast, g ≠ []) →
      (∀ t ∈ ts, t ≠ [] ∧ ∀ c ∈ t, isspace c = false ∧ c ≠ NUL) →
      Shape gaps ts := by
  induction ts with
  | nil =>
    intro gaps hlen hgap _ _
    match gaps, hlen with
    | [g], _ =>
      simp only [Shape]
      exact hgap g (List.mem_cons_self _ _)
  | cons t ts ih =>
    intro gaps hlen hgap hsep htok
    match gaps, hlen with
    | g :: g1 :: gs, hlen =>
      simp only [Shape]
      have hlen2 : (g1 :: gs).length = ts.length + 1 := by
        simp only [List.length_cons] at hlen ⊢
        omega
      refine ⟨hgap g (List.mem_cons_self _ _), htok t (List.mem_cons_self _ _), ?_, ?_⟩
      · intro hts
        have hgs : gs ≠ [] := by
          intro h
          subst h
          cases ts with
          | nil => exact hts rfl
          | cons _ _ => simp at hlen2
        apply hsep
        obtain ⟨x, xs, rfl⟩ := List.exists_cons_of_ne_nil hgs
        simp [List.dropLast]
      · apply ih (g1 :: gs) hlen2
        · intro x hx
          exact hgap x (List.mem_cons_of_mem _ hx)
        · intro x hx
          apply hsep
          cases gs with
          | nil => simp at hx
          | cons y ys =>
            simp only [List.tail_cons] at hx ⊢
            simp only [List.dropLast]
            exact List.mem_cons_of_mem _ hx
        · intro x hx
          exact htok x (List.mem_cons_of_mem _ hx)

theorem argStrings_map_some (buf : List Char) (ptrs : List Nat) :
    argStrings buf (ptrs.map some ++ [none]) = ptrs.map (cstrAt buf) := by
  induction ptrs with
  | nil => simp [argStrings]
  | cons p ps ih => simp [argStrings, ih]

theorem argparse_of_shape (ts gaps : List (List Char)) (pre rest : List Char)
    (hs : Shape gaps ts) :
    ∃ (buf : List Char) (ptrs : List Nat),
      argparse true (pre ++ buildLine gaps ts ++ NUL :: rest) pre.length
        = some (some ⟨buf, ptrs.map some ++ [none], ts.length⟩)
      ∧ ptrs.map (cstrAt buf) = ts := by
  have hcount := argCountLoop_shape ts gaps rest 0 false hs (fun h => Bool.noConfusion h)
  obtain ⟨buf, ptrs, hrun, _, hstr⟩ := argparseLoop_shape ts gaps pre rest pre.length [] hs
  refine ⟨buf, ptrs, ?_, hstr⟩
  simp only [argparse, argCount, List.append_assoc, List.drop_left, List.take_left,
    hcount, hrun]
  simp

/-- Claim C1. Tokenizer round trip: for tokens `ts` (non-empty, free of white
space and of the terminator) and white-space runs `gaps` (one before each
token and one after the last, those between two tokens non-empty), `argparse`
on the line `buildLine gaps ts` returns an array of exactly `ts.length`
pointers followed by `NULL`, the pointed-to strings are `ts` in order, and
`*argcp` is `ts.length`; wherever the line sits in its buffer (after the bytes
`pre`, before the bytes `rest`). -/
theorem argparse_round_trip (ts gaps : List (List Char)) (pre rest : List Char)
    (hlen : gaps.length = ts.length + 1)
    (hgap : ∀ g ∈ gaps, ∀ c ∈ g, isspace c = true)
    (hsep : ∀ g ∈ gaps.tail.dropLast, g ≠ [])
    (htok : ∀ t ∈ ts, t ≠ [] ∧ ∀ c ∈ t, isspace c = false ∧ c ≠ NUL) :
    ∃ (buf : List Char) (ptrs : List Nat),
      argparse true (pre ++ buildLine gaps ts ++ NUL :: rest) pre.length
        = some (some ⟨buf, ptrs.map some ++ [none], ts.length⟩)
      ∧ ptrs.map (cstrAt buf) = ts
      ∧ argStrings buf (ptrs.map some ++ [none]) = ts := by
  obtain ⟨buf, ptrs, hrun, hstr⟩ :=
    argparse_of_shape ts gaps pre rest (shape_of_lists ts gaps hlen hgap hsep htok)
  exact ⟨buf, ptrs, hrun, hstr, (argStrings_map_some buf ptrs).trans hstr⟩

/-- Witness for C1: the line `"   ls    -l   /home  "` at the start of a buffer. -/
theorem argparse_round_trip_witness :
    ∃ (buf : List Char) (ptrs : List Nat),
      argparse true ([] ++ buildLine ["   ".toList, "    ".toList, "   ".toList, "  ".toList]
          ["ls".toList, "-l".toList, "/home".toList] ++ NUL :: []) ([] : List Char).length
        = some (some ⟨buf, ptrs.map some ++ [none], 3⟩)
      ∧ ptrs.map (cstrAt buf) = ["ls".toList, "-l".toList, "/home".toList]
      ∧ argStrings buf (ptrs.map some ++ [none]) = ["ls".toList, "-l".toList, "/home".toList] :=
  argparse_round_trip ["ls".toList, "-l".toList, "/home".toList]
    ["   ".toList, "    ".toList, "   ".toList, "  ".toList] [] [] (by decide) (by decide)
    (by decide) (by decide)

/-! ## The read loop and blank lines -/

/-- Claim C2 (defect in the code). The line that is one blank passes the
`strlen` test of `processline`, parses to the empty vector, `builtIn` returns
0 for it, and the launcher runs: the process forks; the parent waits for the
child; the child reaches `execvp` with a `NULL` file, for which C defines no
result (the model gives none after the fork).  The same fork and wait happen
from `main` on the input of a blank and a newline. -/
theorem processline_blank_line_forks :
    processline (demoWorld 7) (some 0) (demoProc " " [])
      = (.ret (), { demoProc " " [] with trace := [.fork, .waitpid 7] })
    ∧ processline (demoWorld 0) (some 0) (demoProc " " [])
      = (.stuck, { demoProc " " [] with trace := [.fork] })
    ∧ (main (demoWorld 7) " \n".toList (freshProc [])).2.trace
      = [.out "% ".toList, .fork, .waitpid 7, .out "% ".toList, .err "getline"] := by
  decide

/-- Claim C10 (defect in the code). On the input `ls` that ends without a
newline, `getline` returns 2 and `line[len - 1] = 0` removes the `s`: the
string `main` hands to `processline` is `l`, and that is the program the child
tries to execute. -/
theorem main_strips_last_char_without_newline :
    rawLines "ls".toList [] = ["ls".toList]
    ∧ cstrAt (stripLast (getline [] "ls".toList) 2) 0 = "l".toList
    ∧ (main (demoWorld 0) "ls".toList (freshProc [])).2.trace
      = [.out "% ".toList, .fork, .execvp (some "l".toList) ["l".toList] [], .err "execvp"] := by
  decide

/-- Claim C5 (defect in the code). After `env FOO=bar` the entry of `environ`
is a pointer into the line buffer (offset 4).  Reading and tokenizing the next
line, `printenv FOO`, overwrites those bytes: the environment handed to
`execvp` for that line holds `tenv` where `FOO=bar` was, although the built-in
had printed `FOO=bar`. -/
theorem env_entry_overwritten_by_next_line :
    (main (demoWorld 0) "env FOO=bar\nprintenv FOO\n".toList (freshProc ["PATH=/bin"])).2.trace
      = [.out "% ".toList, .putenv "FOO=bar".toList, .out "PATH=/bin\n".toList,
         .out "FOO=bar\n".toList, .out "% ".toList, .fork,
         .execvp (some "printenv".toList) ["printenv".toList, "FOO".toList]
           ["PATH=/bin".toList, "tenv".toList],
         .err "execvp"]
    ∧ (main (demoWorld 0) "env FOO=bar\nprintenv FOO\n".toList (freshProc ["PATH=/bin"])).2.environ
      = [.static "PATH=/bin".toList, .inLine 4] := by
  decide

/-! ## Dispatch and the exit built-in -/

theorem argparse_argc_of_empty (m : Bool) (buf : List Char) (l : Nat) (p : Parsed)
    (he : cstrAt buf l = []) (hp : argparse m buf l = some (some p)) : p.argc = 0 := by
  unfold argparse at hp
  unfold cstrAt at he
  cases hd : buf.drop l with
  | nil => simp [hd, argCount, argCountLoop] at hp
  | cons c r =>
    rw [hd] at he hp
    have hc : c = NUL := by
      by_contra hne
      have hb : (c != NUL) = true := by simp [hne]
      simp [cstr, List.takeWhile_cons, hb] at he
    subst hc
    simp only [argCount, argCountLoop, if_true] at hp
    cases m with
    | false => simp at hp
    | true =>
      simp only [Bool.not_true, Bool.false_eq_true, if_false] at hp
      split at hp
      · exact absurd hp (by simp)
      · simp only [Option.some.injEq] at hp
        rw [← hp]

theorem line_nonempty_of_argc (m : Bool) (buf : List Char) (l : Nat) (p : Parsed)
    (hp : argparse m buf l = some (some p)) (hpos : 0 < p.argc) :
    (cstrAt buf l).length ≠ 0 := by
  intro h
  have he : cstrAt buf l = [] := List.length_eq_zero.mp h
  have := argparse_argc_of_empty m buf l p he hp
  omega

/-- Claim C4. The `exit` contract.  For a line that `argparse` turns into a
vector `p` whose first string is `exit`: with one argument `processline` ends
the process with status 0; with two arguments with status `atoi(args[1])`
(7 for `exit 7`); with more than two it reports `exit: too many arguments` on
standard error and returns to the loop, nothing else changed.  And `main`
returns 0 on an input whose first line is exactly `exit`, without running
anything. -/
theorem exit_contract (w : World) (st : Proc) (l : Nat) (p : Parsed)
    (hp : argparse w.mallocOk st.linebuf l = some (some p))
    (h0 : argAt { st with linebuf := p.buf } p.args 0 = some "exit".toList) :
    (p.argc = 1 → processline w (some l) st = (.exit 0, { st with linebuf := p.buf }))
    ∧ (∀ s, p.argc = 2 → argAt { st with linebuf := p.buf } p.args 1 = some s →
        processline w (some l) st = (.exit (atoi s), { st with linebuf := p.buf }))
    ∧ (2 < p.argc → processline w (some l) st
        = (.ret (), emit (.err "exit: too many arguments") { st with linebuf := p.buf }))
    ∧ atoi "7".toList = 7
    ∧ (∀ (more : List Char) (st0 : Proc),
        (main w ("exit\n".toList ++ more) st0).1 = .ret 0
        ∧ (main w ("exit\n".toList ++ more) st0).2.trace = st0.trace ++ [.out "% ".toList]) := by
  refine ⟨?_, ?_, ?_, by decide, ?_⟩
  · intro hargc
    have hne := line_nonempty_of_argc _ _ _ _ hp (by omega)
    simp [processline, hne, hp, builtIn, h0, exitProgram, hargc, thenReturn1]
  · intro s hargc h1
    have hne := line_nonempty_of_argc _ _ _ _ hp (by omega)
    simp [processline, hne, hp, builtIn, h0, h1, exitProgram, hargc, thenReturn1]
  · intro hargc
    have hne := line_nonempty_of_argc _ _ _ _ hp (by omega)
    have h3 : p.argc ≠ 0 := by omega
    simp [processline, hne, hp, builtIn, h0, exitProgram, hargc, thenReturn1, h3]
  · intro more st0
    have hraw : rawLines ("exit\n".toList ++ more) [] = "exit\n".toList :: rawLines more [] := by
      rw [show "exit\n".toList = ['e', 'x', 'i', 't', '\n'] from rfl]
      simp [rawLines]
    have hline : ∀ b : List Char, cstrAt (stripLast (getline b "exit\n".toList)
        "exit\n".toList.length) 0 = "exit".toList := by
      intro b
      rw [show "exit\n".toList = ['e', 'x', 'i', 't', '\n'] from rfl,
        show "exit".toList = ['e', 'x', 'i', 't'] from rfl]
      simp [stripLast, getline, cstrAt, cstr, List.takeWhile, NUL]
    unfold main
    rw [hraw]
    unfold mainLoop
    simp only [getinput]
    rw [if_neg (by decide), if_neg (by decide)]
    simp only [Int.toNat_ofNat]
    rw [if_pos (hline _)]
    simp [emit]

/-- Witness for C4: the line `exit 7`. -/
theorem exit_contract_witness :
    processline (demoWorld 0) (some 0) (demoProc "exit 7" [])
      = (.exit (atoi "7".toList),
          { demoProc "exit 7" [] with linebuf := "exit".toList ++ [NUL] ++ "7".toList ++ [NUL] }) :=
  (exit_contract (demoWorld 0) (demoProc "exit 7" []) 0
    ⟨"exit".toList ++ [NUL] ++ "7".toList ++ [NUL], [some 0, some 5, none], 2⟩
    (by decide) (by decide)).2.1 "7".toList rfl (by decide)

theorem lookupHandler_isSome (a0 : List Char) :
    (lookupHandler roster a0).isSome = true ↔ a0 ∈ rosterNames := by
  unfold roster rosterNames
  simp only [lookupHandler, List.mem_cons, List.mem_singleton]
  by_cases h1 : a0 = ['e', 'x', 'i', 't']
  · subst h1; simp
  by_cases h2 : a0 = ['p', 'w', 'd']
  · subst h2; simp
  by_cases h3 : a0 = ['c', 'd']
  · subst h3; simp
  by_cases h4 : a0 = ['l', 's']
  · subst h4; simp
  by_cases h5 : a0 = ['c', 'p']
  · subst h5; simp
  by_cases h6 : a0 = ['e', 'n', 'v']
  · subst h6; simp
  simp [h1, h2, h3, h4, h5, h6]

theorem builtIn_eq_lookup (w : World) (st : Proc) (av : List (Option Nat)) (argcp : Nat)
    (a0 : List Char) (hpos : 0 < argcp) (h0 : argAt st av 0 = some a0) :
    builtIn w st (some av) argcp =
      match lookupHandler roster a0 with
      | some h => thenReturn1 (h w st av argcp)
      | none => (.ret 0, st) := by
  have hz : argcp ≠ 0 := by omega
  simp only [builtIn, hz, if_false, h0, roster, lookupHandler]
  by_cases h1 : a0 = "exit".toList
  · simp only [h1, if_true]
  by_cases h2 : a0 = "pwd".toList
  · simp only [h2, if_true]; rfl
  by_cases h3 : a0 = "cd".toList
  · simp only [h3, if_true]; rfl
  by_cases h4 : a0 = "ls".toList
  · simp only [h4, if_true]; rfl
  by_cases h5 : a0 = "cp".toList
  · simp only [h5, if_true]; rfl
  by_cases h6 : a0 = "env".toList
  · simp only [h6, if_true]; rfl
  simp only [h1, h2, h3, h4, h5, h6, if_false]

theorem thenReturn1_ret_iff (r : Outcome Unit × Proc) :
    (thenReturn1 r).1 = .ret 1 ↔ r.1 = .ret () := by
  obtain ⟨o, s⟩ := r
  cases o <;> simp [thenReturn1]

theorem builtIn_not_registered (w : World) (st : Proc) (av : List (Option Nat)) (argcp : Nat)
    (a0 : List Char) (h0 : 0 < argcp → argAt st av 0 = some a0)
    (hn : ¬ (0 < argcp ∧ a0 ∈ rosterNames)) :
    builtIn w st (some av) argcp = (.ret 0, st) := by
  by_cases hpos : 0 < argcp
  · rw [builtIn_eq_lookup w st av argcp a0 hpos (h0 hpos)]
    have hnot : ¬ a0 ∈ rosterNames := fun h => hn ⟨hpos, h⟩
    have hnone : lookupHandler roster a0 = none := by
      cases hl : lookupHandler roster a0 with
      | none => rfl
      | some h =>
        exact absurd ((lookupHandler_isSome a0).mp (by simp [hl])) hnot
    simp [hnone]
  · have hz : argcp = 0 := by omega
    simp [builtIn, hz]

/-- Claim C3, as amended. The dispatch decision: `builtIn` on a vector with
`argcp` arguments and first string `a0` runs the handler the registry holds
for `a0`, that one only, and executes `return 1` after it; so it returns 1
exactly when `argcp > 0`, `a0` is a registered name and the handler returns
(`exit` with at most two arguments ends the process instead).  With no
argument, or with a first string that is not one of the six names, it returns
0 and leaves the state, trace included, as it was. -/
theorem builtIn_dispatch (w : World) (st : Proc) (av : List (Option Nat)) (argcp : Nat)
    (a0 : List Char) (h0 : 0 < argcp → argAt st av 0 = some a0) :
    (0 < argcp →
      builtIn w st (some av) argcp =
        match lookupHandler roster a0 with
        | some h => thenReturn1 (h w st av argcp)
        | none => (.ret 0, st))
    ∧ ((lookupHandler roster a0).isSome = true ↔ a0 ∈ rosterNames)
    ∧ ((builtIn w st (some av) argcp).1 = .ret 1 ↔
        0 < argcp ∧ ∃ h, lookupHandler roster a0 = some h ∧ (h w st av argcp).1 = .ret ())
    ∧ (¬ (0 < argcp ∧ a0 ∈ rosterNames) → builtIn w st (some av) argcp = (.ret 0, st)) := by
  refine ⟨fun hpos => builtIn_eq_lookup w st av argcp a0 hpos (h0 hpos),
    lookupHandler_isSome a0, ?_, ?_⟩
  · by_cases hpos : 0 < argcp
    · rw [builtIn_eq_lookup w st av argcp a0 hpos (h0 hpos)]
      cases hl : lookupHandler roster a0 with
      | none =>
        constructor
        · intro h
          simp at h
        · rintro ⟨_, h, hh, _⟩
          cases hh
      | some h =>
        simp only [thenReturn1_ret_iff]
        constructor
        · intro hr
          exact ⟨hpos, h, rfl, hr⟩
        · rintro ⟨_, h2, hh, hr⟩
          cases hh
          exact hr
    · have hz : argcp = 0 := by omega
      subst hz
      constructor
      · intro h
        simp [builtIn] at h
      · rintro ⟨h, _⟩
        exact absurd h (by decide)
  · exact builtIn_not_registered w st av argcp a0 h0

/-- Witness for C3: `pwd` in the directory `/` is dispatched to its handler
and `builtIn` returns 1. -/
theorem builtIn_dispatch_witness :
    (builtIn (demoWorld 0) (demoProc "pwd" []) (some [some 0, none]) 1).1 = .ret 1 :=
  ((builtIn_dispatch (demoWorld 0) (demoProc "pwd" []) [some 0, none] 1 "pwd".toList
    (fun _ => by decide)).2.2.1).mpr
    ⟨by decide, fun _ st av n => pwd st av n, by rfl, by decide⟩

/-- Counterexample to C3 as stated: for the vector `["exit"]` the count is
positive and the name is registered, yet `builtIn` does not return 1: the
handler ends the process with status 0. -/
theorem builtIn_exit_does_not_return :
    ¬ ((builtIn (demoWorld 0) (demoProc "exit" []) (some [some 0, none]) 1).1 = .ret 1 ↔
        (0 < 1 ∧ argAt (demoProc "exit" []) [some 0, none] 0 = some "exit".toList
          ∧ "exit".toList ∈ rosterNames))
    ∧ builtIn (demoWorld 0) (demoProc "exit" []) (some [some 0, none]) 1
        = (.exit 0, demoProc "exit" []) := by
  decide

/-! ## Argument errors -/

theorem cmdA_ls_plain (w : World) (st : Proc) (av : List (Option Nat)) (argc : Nat)
    (h : 2 < argc ∨ (argc = 2 ∧ ∃ s, argAt st av 1 = some s ∧ s ≠ "-l".toList)) :
    cmdA_ls w st av argc = cmdA_ls w st av 1 := by
  unfold cmdA_ls
  cases hl : w.listing st.cwd st.fs with
  | none => rfl
  | some entries =>
    rcases h with h | ⟨h2, s, hs, hne⟩
    · have h2 : argc ≠ 2 := by omega
      simp [h2]
    · subst h2
      have hne2 : s ≠ ['-', 'l'] := hne
      simp [hs, hne2]

/-- Claim C6, as amended. Argument errors abort the command, for the five
built-ins that check their arguments: `exit` with more than 2 arguments, `pwd`
with a count other than 1, `cd` with more than 2, `cp` with a count other than
3, `env` with more than 2 or with a second argument without `=`: `builtIn`
returns 1 and the only change is one diagnostic appended to the trace (no
exit, no standard output, same directory, same files, same environment).
`ls` checks nothing: with more than 2 arguments, or with a second argument
other than `-l`, it does what `ls` alone does. -/
theorem builtin_argument_errors (w : World) (st : Proc) (av : List (Option Nat)) (argc : Nat) :
    (argAt st av 0 = some "exit".toList → 2 < argc →
      builtIn w st (some av) argc = (.ret 1, emit (.err "exit: too many arguments") st))
    ∧ (argAt st av 0 = some "pwd".toList → 1 < argc →
      builtIn w st (some av) argc = (.ret 1, emit (.err "pwd: no arguments required") st))
    ∧ (argAt st av 0 = some "cd".toList → 2 < argc →
      builtIn w st (some av) argc = (.ret 1, emit (.err "cd: too many arguments") st))
    ∧ (argAt st av 0 = some "cp".toList → 0 < argc → argc ≠ 3 →
      builtIn w st (some av) argc = (.ret 1, emit (.err "cp: invalid number of arguments") st))
    ∧ (argAt st av 0 = some "env".toList → 2 < argc →
      builtIn w st (some av) argc = (.ret 1, emit (.err "env: too many arguments") st))
    ∧ (∀ s, argAt st av 0 = some "env".toList → argc = 2 → argAt st av 1 = some s → '=' ∉ s →
      builtIn w st (some av) argc
        = (.ret 1, emit (.err "env: invalid format, expected NAME=VALUE") st))
    ∧ (argAt st av 0 = some "ls".toList →
        (2 < argc ∨ (argc = 2 ∧ ∃ s, argAt st av 1 = some s ∧ s ≠ "-l".toList)) →
      builtIn w st (some av) argc = builtIn w st (some av) 1) := by
  refine ⟨?_, ?_, ?_, ?_, ?_, ?_, ?_⟩
  · intro h0 hc
    have hz : argc ≠ 0 := by omega
    simp [builtIn, hz, h0, exitProgram, hc, thenReturn1]
  · intro h0 hc
    have hz : argc ≠ 0 := by omega
    have h1 : argc ≠ 1 := by omega
    rw [builtIn_eq_lookup w st av argc _ (by omega) h0]
    simp [roster, lookupHandler, pwd, h1, thenReturn1]
  · intro h0 hc
    rw [builtIn_eq_lookup w st av argc _ (by omega) h0]
    simp [roster, lookupHandler, cd, hc, thenReturn1]
  · intro h0 hpos hc
    rw [builtIn_eq_lookup w st av argc _ hpos h0]
    simp [roster, lookupHandler, cmdA_cp, hc, thenReturn1]
  · intro h0 hc
    rw [builtIn_eq_lookup w st av argc _ (by omega) h0]
    simp [roster, lookupHandler, cmdA_env, hc, thenReturn1]
  · intro s h0 hc h1 hs
    subst hc
    have h1b : ∃ p, av.get? 1 = some (some p) ∧ cstrAt st.linebuf p = s := by
      unfold argAt at h1
      split at h1
      · rename_i p hp
        exact ⟨p, hp, by simpa using h1⟩
      · exact absurd h1 (by simp)
    obtain ⟨p, hp, hps⟩ := h1b
    have hp2 : av[1]? = some (some p) := by simpa using hp
    rw [builtIn_eq_lookup w st av 2 _ (by omega) h0]
    simp [roster, lookupHandler, cmdA_env, hp2, hps, hs, thenReturn1]
  · intro h0 hc
    have hpos : 0 < argc := by omega
    rw [builtIn_eq_lookup w st av argc _ hpos h0, builtIn_eq_lookup w st av 1 _ (by omega) h0]
    simp only [roster, lookupHandler]
    have := cmdA_ls_plain w st av argc hc
    simp [this]

/-- Witness for C6: `cd a b`. -/
theorem builtin_argument_errors_witness :
    builtIn (demoWorld 0) (demoProc "cd\x00a\x00b" []) (some [some 0, some 3, some 5, none]) 3
      = (.ret 1, emit (.err "cd: too many arguments") (demoProc "cd\x00a\x00b" [])) :=
  (builtin_argument_errors (demoWorld 0) (demoProc "cd\x00a\x00b" [])
    [some 0, some 3, some 5, none] 3).2.2.1
    (by decide) (by decide)

/-- Counterexample to C6 as stated: `ls x y` (three arguments) and `ls -a`
(a second argument other than `-l`) write no diagnostic, and list the
directory on standard output. -/
theorem ls_ignores_argument_errors :
    (processline (demoWorld 0) (some 0) (demoProc "ls x y" [])).2.trace
      = [.out "a\n".toList, .out "d\n".toList]
    ∧ (processline (demoWorld 0) (some 0) (demoProc "ls -a" [])).2.trace
      = [.out "a\n".toList, .out "d\n".toList] := by
  decide

/-! ## The process launcher -/

/-- Claim C8. The launch protocol.  For a line that `argparse` turns into a
non-empty vector `p` whose first string `a0` is not a registered name,
`processline` forks exactly once and then: when `fork` fails (negative
result) it reports `fork` and returns, with no `execvp` and no `waitpid`; in
the child (result 0) it calls `execvp` with `a0`, the whole vector and the
current environment, and either the image is replaced or, `execvp` having
failed, it reports `execvp` and the child exits with status 1, never
returning to the loop; in the parent it waits once, on the pid `fork`
returned, and returns to the loop. -/
theorem launch_protocol (w : World) (st : Proc) (l : Nat) (p : Parsed) (a0 : List Char)
    (hp : argparse w.mallocOk st.linebuf l = some (some p))
    (hpos : 0 < p.argc)
    (h0 : argAt { st with linebuf := p.buf } p.args 0 = some a0)
    (hnot : a0 ∉ rosterNames) :
    (w.fork st.trace < 0 →
      processline w (some l) st
        = (.ret (), { st with linebuf := p.buf, trace := st.trace ++ [.fork, .err "fork"] }))
    ∧ (w.fork st.trace = 0 → w.execOk a0 = true →
      processline w (some l) st
        = (.replaced, { st with linebuf := p.buf, trace := st.trace ++
            [.fork, .execvp (some a0) (argStrings p.buf p.args)
              (envStrings { st with linebuf := p.buf })] }))
    ∧ (w.fork st.trace = 0 → w.execOk a0 = false →
      processline w (some l) st
        = (.exit 1, { st with linebuf := p.buf, trace := st.trace ++
            [.fork, .execvp (some a0) (argStrings p.buf p.args)
              (envStrings { st with linebuf := p.buf }), .err "execvp"] }))
    ∧ (0 < w.fork st.trace →
      processline w (some l) st
        = (.ret (), { st with linebuf := p.buf, trace := st.trace ++
            [.fork, .waitpid (w.fork st.trace)] })) := by
  have hne := line_nonempty_of_argc _ _ _ _ hp hpos
  have hb : builtIn w { st with linebuf := p.buf } (some p.args) p.argc
      = (.ret 0, { st with linebuf := p.buf }) :=
    builtIn_not_registered w { st with linebuf := p.buf } p.args p.argc a0 (fun _ => h0)
      (fun h => hnot h.2)
  have h0b : argAt (emit .fork { st with linebuf := p.buf }) p.args 0 = some a0 := h0
  refine ⟨?_, ?_, ?_, ?_⟩
  · intro hf
    simp [processline, hne, hp, hb, hf, emit]
  · intro hf hx
    simp [processline, hne, hp, hb, hf, h0b, hx]
    simp [emit, envStrings, envString]
  · intro hf hx
    simp [processline, hne, hp, hb, hf, h0b, hx]
    simp [emit, envStrings, envString]
  · intro hf
    have h1 : ¬ w.fork st.trace < 0 := by omega
    have h2 : ¬ w.fork st.trace = 0 := by omega
    simp [processline, hne, hp, hb, h1, h2, emit]

/-- Witness for C8: the line `printenv FOO` in the child of the fork, with
no such program. -/
theorem launch_protocol_witness :
    processline (demoWorld 0) (some 0) (demoProc "printenv FOO" [])
      = (.exit 1, { demoProc "printenv FOO" [] with
          linebuf := "printenv".toList ++ [NUL] ++ "FOO".toList ++ [NUL],
          trace := (demoProc "printenv FOO" []).trace ++
            [.fork, .execvp (some "printenv".toList)
              (argStrings ("printenv".toList ++ [NUL] ++ "FOO".toList ++ [NUL]) [some 0, some 9, none])
              (envStrings { demoProc "printenv FOO" [] with
                linebuf := "printenv".toList ++ [NUL] ++ "FOO".toList ++ [NUL] }),
             .err "execvp"] }) :=
  (launch_protocol (demoWorld 0) (demoProc "printenv FOO" []) 0
    ⟨"printenv".toList ++ [NUL] ++ "FOO".toList ++ [NUL], [some 0, some 9, none], 2⟩
    "printenv".toList (by decide) (by decide) (by decide) (by decide)).2.2.1 (by decide) (by decide)

/-! ## cd -/

/-- Claim C9, as amended. `cd` and `HOME`.  With no argument and `HOME` set to
`h`, `cd` calls `chdir(h)`: when the call succeeds the working directory is
the directory `h` names and nothing is reported; when it fails `cd` is
reported and the working directory is unchanged.  With `HOME` unset it
reports the error, makes no `chdir` call and leaves the working directory
unchanged.  With one argument `P` it calls `chdir(P)`, with the same two
outcomes.  In every case the handler returns: the shell keeps running. -/
theorem cd_contract (w : World) (st : Proc) (av : List (Option Nat)) :
    (∀ h d, getenv st "HOME".toList = some h → w.chdir st.cwd h = some d →
      cd w st av 1 = (.ret (), { st with cwd := d, trace := st.trace ++ [.chdir h] }))
    ∧ (∀ h, getenv st "HOME".toList = some h → w.chdir st.cwd h = none →
      cd w st av 1 = (.ret (), { st with trace := st.trace ++ [.chdir h, .err "cd"] }))
    ∧ (getenv st "HOME".toList = none →
      cd w st av 1
        = (.ret (), { st with trace := st.trace ++ [.err "cd: HOME environment variable not set"] }))
    ∧ (∀ P d, argAt st av 1 = some P → w.chdir st.cwd P = some d →
      cd w st av 2 = (.ret (), { st with cwd := d, trace := st.trace ++ [.chdir P] }))
    ∧ (∀ P, argAt st av 1 = some P → w.chdir st.cwd P = none →
      cd w st av 2 = (.ret (), { st with trace := st.trace ++ [.chdir P, .err "cd"] })) := by
  refine ⟨?_, ?_, ?_, ?_, ?_⟩
  · intro h d hh hd
    have hh2 : getenv st ['H', 'O', 'M', 'E'] = some h := hh
    simp [cd, hh2, hd, emit]
  · intro h hh hd
    have hh2 : getenv st ['H', 'O', 'M', 'E'] = some h := hh
    simp [cd, hh2, hd, emit]
  · intro hh
    have hh2 : getenv st ['H', 'O', 'M', 'E'] = none := hh
    simp [cd, hh2, emit]
  · intro P d hP hd
    simp [cd, hP, hd, emit]
  · intro P hP hd
    simp [cd, hP, hd, emit]

/-- Witness for C9: `cd` with `HOME=/x`. -/
theorem cd_contract_witness :
    cd (demoWorld 0) (demoProc "cd" ["HOME=/x"]) [some 0, none] 1
      = (.ret (), { demoProc "cd" ["HOME=/x"] with
          cwd := "/x".toList,
          trace := (demoProc "cd" ["HOME=/x"]).trace ++ [.chdir "/x".toList] }) :=
  (cd_contract (demoWorld 0) (demoProc "cd" ["HOME=/x"]) [some 0, none]).1
    "/x".toList "/x".toList (by decide) (by decide)

/-- Counterexample to C9 as stated: `HOME` is set, to `/nonexistent`, and `cd`
with no argument does not change the working directory to it: `chdir` fails,
`cd` is reported, the directory is still `/`. -/
theorem cd_home_set_but_no_change :
    getenv (demoProc "cd" ["HOME=/nonexistent"]) "HOME".toList = some "/nonexistent".toList
    ∧ processline (demoWorld 0) (some 0) (demoProc "cd" ["HOME=/nonexistent"])
      = (.ret (), { demoProc "cd" ["HOME=/nonexistent"] with
          trace := [.chdir "/nonexistent".toList, .err "cd"] })
    ∧ (processline (demoWorld 0) (some 0) (demoProc "cd" ["HOME=/nonexistent"])).2.cwd
      ≠ "/nonexistent".toList := by
  decide

/-! ## cp -/

theorem fsGet_fsSet_same (fs : List (Nat × Node)) (id : Nat) (n : Node) :
    fsGet (fsSet fs id n) id = some n := by
  simp [fsSet, fsGet]

theorem fsGet_fsSet_other (fs : List (Nat × Node)) (id id2 : Nat) (n : Node) (h : id ≠ id2) :
    fsGet (fsSet fs id n) id2 = fsGet fs id2 := by
  simp [fsSet, fsGet, h]

theorem cpClose_fs (w : World) (st : Proc) : (cpClose w st).fs = st.fs := by
  unfold cpClose
  by_cases h1 : w.closeSrcFails = true <;> by_cases h2 : w.closeDestFails = true <;>
    simp [h1, h2, emit]

theorem cpClose_trace (w : World) (st : Proc) :
    ∃ evs, (cpClose w st).trace = st.trace ++ evs := by
  unfold cpClose
  by_cases h1 : w.closeSrcFails = true <;> by_cases h2 : w.closeDestFails = true
  · exact ⟨[.err "close", .err "close"], by simp [h1, h2, emit]⟩
  · exact ⟨[.err "close"], by simp [h1, h2, emit]⟩
  · exact ⟨[.err "close"], by simp [h1, h2, emit]⟩
  · exact ⟨[], by simp [h1, h2]⟩

theorem cpLoop_spec (w : World) (src dst : Nat) (hne : src ≠ dst) (sn : Node) :
    ∀ (fuel k off : Nat) (st : Proc) (dn : Node),
      fsGet st.fs src = some sn → fsGet st.fs dst = some dn → dn.special = false →
      dn.data = sn.data.take off → off ≤ sn.data.length → sn.data.length - off < fuel →
      ∃ (evs : List Event) (dn2 : Node),
        (cpLoop w src dst fuel k off st).1 = .ret ()
        ∧ (cpLoop w src dst fuel k off st).2.trace = st.trace ++ evs
        ∧ fsGet (cpLoop w src dst fuel k off st).2.fs dst = some dn2
        ∧ dn2.isDir = dn.isDir
        ∧ dn2.special = false
        ∧ ((∀ e ∈ evs, e.isErr = false) → dn2.data = sn.data) := by
  intro fuel
  induction fuel with
  | zero =>
    intro k off st dn _ _ _ _ _ hf
    omega
  | succ fuel ih =>
    intro k off st dn hs hd hsp hdata hoff hf
    have hns : ¬ dn.special = true := by simp [hsp]
    unfold cpLoop
    simp only [hs, hd, if_neg hns]
    cases hr : w.readPlan k with
    | none =>
      obtain ⟨evs, hevs⟩ := cpClose_trace w (emit (.err "read") st)
      refine ⟨.err "read" :: evs, dn, rfl, ?_, ?_, rfl, hsp, ?_⟩
      · simp only [hevs]
        simp [emit]
      · simp only [cpClose_fs]
        exact hd
      · intro hq
        have := hq (.err "read") (List.mem_cons_self _ _)
        simp [Event.isErr] at this
    | some want =>
      simp only []
      have hle : min (max want 1) (min 4096 (sn.data.length - off)) ≤ sn.data.length - off := by
        omega
      have hzero : min (max want 1) (min 4096 (sn.data.length - off)) = 0 →
          sn.data.length ≤ off := by
        omega
      generalize min (max want 1) (min 4096 (sn.data.length - off)) = n at hle hzero ⊢
      by_cases hn : n = 0
      · rw [if_pos hn]
        obtain ⟨evs, hevs⟩ := cpClose_trace w st
        refine ⟨evs, dn, rfl, hevs, ?_, rfl, hsp, ?_⟩
        · simp only [cpClose_fs]
          exact hd
        · intro _
          have hlen : sn.data.length ≤ off := hzero hn
          rw [hdata, List.take_of_length_le hlen]
      · rw [if_neg hn]
        cases hw : w.writePlan k with
        | none =>
          obtain ⟨evs, hevs⟩ := cpClose_trace w (emit (.err "write") st)
          refine ⟨.err "write" :: evs, dn, rfl, ?_, ?_, rfl, hsp, ?_⟩
          · simp only [hevs]
            simp [emit]
          · simp only [cpClose_fs]
            exact hd
          · intro hq
            have := hq (.err "write") (List.mem_cons_self _ _)
            simp [Event.isErr] at this
        | some accept =>
          simp only []
          by_cases hwr : min accept n ≠ n
          · rw [if_pos hwr]
            have hdn1 : ∃ dn1 : Node, dn1 = { dn with data := dn.data ++ List.take (min accept n) (List.take n (List.drop off sn.data)) } ∧ dn1.isDir = dn.isDir ∧ dn1.special = false :=
              ⟨_, rfl, rfl, hsp⟩
            obtain ⟨dn1, hdn1, hdir1, hsp1⟩ := hdn1
            rw [← hdn1]
            obtain ⟨evs, hevs⟩ := cpClose_trace w (emit (.err "write") { st with fs := fsSet st.fs dst dn1 })
            refine ⟨.err "write" :: evs, dn1, rfl, ?_, ?_, hdir1, hsp1, ?_⟩
            · simp only [hevs]
              simp [emit]
            · simp only [cpClose_fs]
              exact fsGet_fsSet_same _ _ _
            · intro hq
              have := hq (.err "write") (List.mem_cons_self _ _)
              simp [Event.isErr] at this
          · rw [if_neg hwr]
            have hwr2 := not_not.mp hwr
            rw [hwr2]
            have hdn1 : ∃ dn1 : Node, dn1 = { dn with data := dn.data ++ List.take n (List.take n (List.drop off sn.data)) } ∧ dn1.isDir = dn.isDir ∧ dn1.special = false ∧ dn1.data = List.take (off + n) sn.data := by
              refine ⟨_, rfl, rfl, hsp, ?_⟩
              simp only [List.take_take, Nat.min_self]
              rw [hdata, List.take_add]
            obtain ⟨dn1, hdn1, hdir1, hsp1, hdata1⟩ := hdn1
            rw [← hdn1]
            obtain ⟨evs, dn2, h1, h2, h3, h4, h5, h6⟩ :=
              ih (k + 1) (off + n) { st with fs := fsSet st.fs dst dn1 } dn1
                (by rw [fsGet_fsSet_other _ _ _ _ (Ne.symm hne)]; exact hs)
                (fsGet_fsSet_same _ _ _) hsp1 hdata1 (by omega) (by omega)
            exact ⟨evs, dn2, h1, h2, h3, h4.trans hdir1, h5, h6⟩

theorem cmdA_cp_open_read_fails (w : World) (st : Proc) (av : List (Option Nat))
    (src dest : List Char) (sn : Node)
    (h1 : argAt st av 1 = some src) (h2 : argAt st av 2 = some dest)
    (hs : stat w st src = some sn) (hdir : sn.isDir = false)
    (hr : w.canRead (w.resolve st.cwd src) = false) :
    (cmdA_cp w st av 3).2.trace = st.trace ++ [.openRead src, .err "open"] := by
  simp [cmdA_cp, h1, h2, hs, hdir, hr, emit]

theorem cmdA_cp_open_write_fails (w : World) (st : Proc) (av : List (Option Nat))
    (src dest : List Char) (sn : Node)
    (h1 : argAt st av 1 = some src) (h2 : argAt st av 2 = some dest)
    (hs : stat w st src = some sn) (hdir : sn.isDir = false)
    (hr : w.canRead (w.resolve st.cwd src) = true)
    (hw : (!w.canWrite (w.resolve st.cwd dest) ||
      match fsGet st.fs (w.resolve st.cwd dest) with
      | some dn => dn.isDir
      | none => false) = true) :
    ∃ evs, (cmdA_cp w st av 3).2.trace
      = st.trace ++ [.openRead src, .openWrite dest, .err "open"] ++ evs := by
  by_cases hc : w.closeSrcFails = true
  · refine ⟨[.err "close"], ?_⟩
    simp only [cmdA_cp, h1, h2, hs, hdir, hr, emit]
    simp only [hw]
    simp [hc]
  · refine ⟨[], ?_⟩
    simp only [cmdA_cp, h1, h2, hs, hdir, hr, emit]
    simp only [hw]
    simp [hc]

theorem cmdA_cp_copy_loop (w : World) (st : Proc) (av : List (Option Nat))
    (src dest : List Char) (sn : Node)
    (h1 : argAt st av 1 = some src) (h2 : argAt st av 2 = some dest)
    (hs : stat w st src = some sn) (hdir : sn.isDir = false)
    (hne : w.resolve st.cwd src ≠ w.resolve st.cwd dest)
    (hr : w.canRead (w.resolve st.cwd src) = true)
    (hw : (!w.canWrite (w.resolve st.cwd dest) ||
      match fsGet st.fs (w.resolve st.cwd dest) with
      | some dn => dn.isDir
      | none => false) = false)
    (hreg : ∀ dn, fsGet st.fs (w.resolve st.cwd dest) = some dn → dn.special = false) :
    ∃ fresh : Node, fresh.isDir = false ∧ fresh.special = false ∧ fresh.data = [] ∧
      cmdA_cp w st av 3 = cpLoop w (w.resolve st.cwd src) (w.resolve st.cwd dest)
        (sn.data.length + 1) 0 0
        { st with fs := fsSet st.fs (w.resolve st.cwd dest) fresh,
                  trace := st.trace ++ [.openRead src, .openWrite dest] } := by
  have hs2 : fsGet st.fs (w.resolve st.cwd src) = some sn := hs
  cases hold : fsGet st.fs (w.resolve st.cwd dest) with
  | none =>
    refine ⟨newFile, rfl, rfl, rfl, ?_⟩
    rw [hold] at hw
    simp only [cmdA_cp, h1, h2, hs, hdir, hr, emit]
    simp only [hold, hw]
    simp [fsGet_fsSet_other _ _ _ _ (Ne.symm hne), hs2]
  | some dn =>
    rw [hold] at hw
    have hd : dn.isDir = false := by
      simp only [Bool.or_eq_false_iff] at hw
      exact hw.2
    have hsp : dn.special = false := hreg dn hold
    have hns : ¬ dn.special = true := by simp [hsp]
    refine ⟨{ dn with data := [] }, hd, hsp, rfl, ?_⟩
    simp only [cmdA_cp, h1, h2, hs, hdir, hr, emit]
    simp only [hold, hw, if_neg hns]
    simp [fsGet_fsSet_other _ _ _ _ (Ne.symm hne), hs2]

/-- Claim C7, as amended. `cp` copies byte for byte: when `src` names a
regular file with bytes `B`, `dest` is absent or names a regular file, `dest`
does not name the same file as `src` (their paths resolve to different
inodes) and `cp src dest` reports no error, the handler returns and `dest` is
a regular file holding exactly `B`, whatever chunks (of 1 to 4096 bytes) the
reads deliver.  When `src` names a directory the error is reported and
nothing else happens: no file is opened, created or truncated. -/
theorem cp_copies (w : World) (st : Proc) (av : List (Option Nat)) (src dest : List Char)
    (sn : Node) (h1 : argAt st av 1 = some src) (h2 : argAt st av 2 = some dest)
    (hs : stat w st src = some sn) :
    (sn.isDir = false → sn.special = false →
      (fsGet st.fs (w.resolve st.cwd dest) = none
        ∨ ∃ dn0, fsGet st.fs (w.resolve st.cwd dest) = some dn0
            ∧ dn0.isDir = false ∧ dn0.special = false) →
      w.resolve st.cwd src ≠ w.resolve st.cwd dest →
      (∀ e ∈ (cmdA_cp w st av 3).2.trace.drop st.trace.length, e.isErr = false) →
      (cmdA_cp w st av 3).1 = .ret ()
      ∧ ∃ dn, fsGet (cmdA_cp w st av 3).2.fs (w.resolve st.cwd dest) = some dn
          ∧ dn.isDir = false ∧ dn.special = false ∧ dn.data = sn.data)
    ∧ (sn.isDir = true →
      cmdA_cp w st av 3
        = (.ret (), emit (.err ("cp: '" ++ String.mk src ++ "' is a directory")) st)) := by
  constructor
  · intro hdir _ hdest hne hq
    have hreg : ∀ dn, fsGet st.fs (w.resolve st.cwd dest) = some dn → dn.special = false := by
      intro dn hdn
      rcases hdest with h | ⟨dn0, h, _, hsp⟩
      · rw [h] at hdn
        exact absurd hdn (by simp)
      · rw [h] at hdn
        cases hdn
        exact hsp
    cases hr : w.canRead (w.resolve st.cwd src) with
    | false =>
      have ht := cmdA_cp_open_read_fails w st av src dest sn h1 h2 hs hdir hr
      rw [ht] at hq
      have := hq (.err "open") (by simp)
      simp [Event.isErr] at this
    | true =>
      cases hw : (!w.canWrite (w.resolve st.cwd dest) ||
        match fsGet st.fs (w.resolve st.cwd dest) with
        | some dn => dn.isDir
        | none => false) with
      | true =>
        obtain ⟨evs, ht⟩ := cmdA_cp_open_write_fails w st av src dest sn h1 h2 hs hdir hr hw
        rw [ht] at hq
        have := hq (.err "open") (by simp)
        simp [Event.isErr] at this
      | false =>
        obtain ⟨fresh, hf1, hf3, hf2, heq⟩ :=
          cmdA_cp_copy_loop w st av src dest sn h1 h2 hs hdir hne hr hw hreg
        have hs2 : fsGet st.fs (w.resolve st.cwd src) = some sn := hs
        obtain ⟨evs, dn2, r1, r2, r3, r4, r6, r5⟩ :=
          cpLoop_spec w (w.resolve st.cwd src) (w.resolve st.cwd dest) hne sn
            (sn.data.length + 1) 0 0
            { st with fs := fsSet st.fs (w.resolve st.cwd dest) fresh,
                      trace := st.trace ++ [.openRead src, .openWrite dest] }
            fresh
            (by rw [fsGet_fsSet_other _ _ _ _ (Ne.symm hne)]; exact hs2)
            (fsGet_fsSet_same _ _ _) hf3 (by simp [hf2]) (Nat.zero_le _) (by omega)
        rw [heq] at hq ⊢
        refine ⟨r1, dn2, r3, r4.trans hf1, r6, r5 ?_⟩
        intro e he
        apply hq
        rw [r2]
        simp [he]
  · intro hdir
    simp [cmdA_cp, h1, h2, hs, hdir]

/-- Witness for C7: `cp a b` (already tokenized in the buffer) where `a` holds
the bytes 1, 2, 3 and `b` does not exist yet. -/
theorem cp_copies_witness :
    (cmdA_cp (demoWorld 0) (demoProc "cp\x00a\x00b" []) [some 0, some 3, some 5, none] 3).1
      = .ret ()
    ∧ ∃ dn, fsGet (cmdA_cp (demoWorld 0) (demoProc "cp\x00a\x00b" [])
          [some 0, some 3, some 5, none] 3).2.fs
          ((demoWorld 0).resolve (demoProc "cp\x00a\x00b" []).cwd "b".toList) = some dn
        ∧ dn.isDir = false ∧ dn.special = false
        ∧ dn.data = (⟨false, false, [1, 2, 3], 420, 1, 0, 0, 0, 8⟩ : Node).data :=
  (cp_copies (demoWorld 0) (demoProc "cp\x00a\x00b" []) [some 0, some 3, some 5, none]
    "a".toList "b".toList ⟨false, false, [1, 2, 3], 420, 1, 0, 0, 0, 8⟩
    (by decide) (by decide) (by decide)).1 (by decide) (by decide) (Or.inl (by decide))
    (by decide) (by decide)

/-- Counterexample to C7 as stated: `cp a a`, where `a` holds the bytes
1, 2, 3, reports no error, and afterwards `a` (the destination) is empty:
opening the destination truncated the source before the first read. -/
theorem cp_onto_itself_loses_content :
    processline (demoWorld 0) (some 0) (demoProc "cp a a" [])
      = (.ret (), { demoProc "cp a a" [] with
          linebuf := "cp".toList ++ [NUL] ++ "a".toList ++ [NUL] ++ "a".toList ++ [NUL],
          fs := (1, ⟨false, false, [], 420, 1, 0, 0, 0, 8⟩) :: (demoProc "cp a a" []).fs,
          trace := [.openRead "a".toList, .openWrite "a".toList] })
    ∧ stat (demoWorld 0) (demoProc "cp a a" []) "a".toList
      = some ⟨false, false, [1, 2, 3], 420, 1, 0, 0, 0, 8⟩
    ∧ stat (demoWorld 0) (processline (demoWorld 0) (some 0) (demoProc "cp a a" [])).2 "a".toList
      = some ⟨false, false, [], 420, 1, 0, 0, 0, 8⟩ := by
  decide

/-- Why the destination must be absent or a regular file: with `b` a special
file (a device that accepts writes and keeps nothing), `cp a b` reports no
error, all three bytes are written, and `b` holds none of them. -/
theorem cp_to_special_file_keeps_nothing :
    (cmdA_cp (demoWorld 0)
      { demoProc "cp\x00a\x00b" [] with
        fs := (2, ⟨false, true, [], 438, 1, 0, 0, 0, 0⟩) :: (demoProc "cp\x00a\x00b" []).fs }
      [some 0, some 3, some 5, none] 3).1 = .ret ()
    ∧ (cmdA_cp (demoWorld 0)
      { demoProc "cp\x00a\x00b" [] with
        fs := (2, ⟨false, true, [], 438, 1, 0, 0, 0, 0⟩) :: (demoProc "cp\x00a\x00b" []).fs }
      [some 0, some 3, some 5, none] 3).2.trace
      = [.openRead "a".toList, .openWrite "b".toList]
    ∧ fsGet (cmdA_cp (demoWorld 0)
      { demoProc "cp\x00a\x00b" [] with
        fs := (2, ⟨false, true, [], 438, 1, 0, 0, 0, 0⟩) :: (demoProc "cp\x00a\x00b" []).fs }
      [some 0, some 3, some 5, none] 3).2.fs 2
      = some ⟨false, true, [], 438, 1, 0, 0, 0, 0⟩ := by
  decide

/-! ## What the code does on the inputs of the defects, in general -/

theorem stripLast_getline (buf init : List Char) (last : Char) (h : ∀ c ∈ init, c ≠ NUL) :
    cstrAt (stripLast (getline buf (init ++ [last])) (init ++ [last]).length) 0 = init := by
  have hset : stripLast (getline buf (init ++ [last])) (init ++ [last]).length
      = init ++ NUL :: (NUL :: buf.drop ((init ++ [last]).length + 1)) := by
    simp only [stripLast, getline, List.length_append, List.length_singleton,
      Nat.add_sub_cancel, List.append_assoc]
    rw [List.set_append_right _ _ (Nat.le_refl _)]
    simp
  rw [hset]
  simpa [cstrAt] using cstr_append_NUL init _ h

theorem processline_whitespace_line_forks (w : World) (st : Proc) (c : Char) (g rest : List Char)
    (hm : w.mallocOk = true) (hc : isspace c = true) (hg : ∀ d ∈ g, isspace d = true)
    (hbuf : st.linebuf = c :: g ++ NUL :: rest) :
    Event.fork ∈ (processline w (some 0) st).2.trace := by
  have hgap : Gap (c :: g) := by
    intro d hd
    rcases List.mem_cons.mp hd with h | h
    · rw [h]; exact hc
    · exact hg d h
  obtain ⟨buf, ptrs, hp, hstr⟩ := argparse_of_shape [] [c :: g] [] rest hgap
  have hptrs : ptrs = [] := by
    cases ptrs with
    | nil => rfl
    | cons _ _ => simp at hstr
  subst hptrs
  have hp2 : argparse w.mallocOk st.linebuf 0 = some (some ⟨buf, [none], 0⟩) := by
    rw [hm, hbuf]
    simpa [buildLine] using hp
  have hne : (cstrAt st.linebuf 0).length ≠ 0 := by
    have hcn : (c != NUL) = true := by simpa using gap_ne_NUL hc
    rw [hbuf]
    simp [cstrAt, cstr, List.takeWhile_cons, hcn]
  have hb : builtIn w { st with linebuf := buf } (some [none]) 0
      = (.ret 0, { st with linebuf := buf }) := by
    simp [builtIn]
  simp only [processline, hne, if_false, hp2, hb]
  by_cases h1 : w.fork st.trace < 0
  · simp [h1, emit]
  · by_cases h2 : w.fork st.trace = 0
    · simp [h2, emit, argAt]
    · simp [h1, h2, emit]

end MyShell
